import Mathlib

/-!
Verification of the DPLL SAT solver in `src/DPLL.js`.

The solver is the single function `dpll(clauses, assignment)` together with a
process-wide cache `memo`.  The embedding below translates it into Lean:

* a clause is a list of signed integer literals; a formula is a list of clauses;
* an assignment is a JS object with integer-like keys.  Per the ECMAScript
  ordinary-own-property-keys order, such an object enumerates its keys in
  ascending numeric order, and `JSON.stringify` serializes entries in that
  enumeration order; the object is therefore modeled as its entry list kept
  strictly sorted by variable, and the spread update as an ordered insert;
* the global cache is threaded through explicitly as a state value.  Its JS
  keys are `JSON.stringify(assignment)` strings; since that serialization is
  injective on canonically-enumerated entry lists, the cache is keyed here by
  the entry list itself (the string serialization is `jsonKey` below);
* the recursion is expressed with an explicit fuel parameter (`dpllF`); fuel
  exhaustion returns `Option.none` at the outer layer.  `unassignedCount`
  (the number of distinct formula variables not yet assigned) plus one is
  proved to be always sufficient fuel, and `dpll` runs `dpllF` at that fuel.
-/

set_option maxRecDepth 8000

namespace SAT

/-- A literal: a signed integer whose absolute value names the variable and
whose sign gives the polarity. -/
abbrev Clause := List Int

/-- A formula in CNF: a list of clauses. -/
abbrev Formula := List Clause

/-- A partial assignment: the entry list of the JS assignment object, kept in
ascending variable order (the object's canonical enumeration order). -/
abbrev Assignment := List (Nat × Bool)

/-- Reading `assignment[v]`: `some b` when `v` is bound, `none` for JS
`undefined`. -/
def lookup : Assignment → Nat → Option Bool
  | [], _ => none
  | (w, c) :: rest, v => if v = w then some c else lookup rest v

/-- The spread update binding variable `v` to `b` (JS builds a fresh object;
integer-like keys enumerate in ascending order, so the entry is placed at its
sorted position). -/
def insertVar : Assignment → Nat → Bool → Assignment
  | [], v, b => [(v, b)]
  | (w, c) :: rest, v, b =>
    if v < w then (v, b) :: (w, c) :: rest
    else if v = w then (v, b) :: rest
    else (w, c) :: insertVar rest v b

/-- Test `assignment[Math.abs(lit)] === (lit > 0)`: the literal evaluates to
true (its variable is bound with matching polarity). -/
def litTrue (a : Assignment) (lit : Int) : Bool :=
  lookup a lit.natAbs == some (decide (0 < lit))

/-- Test `assignment[Math.abs(lit)] === (lit < 0)`: the literal is falsified
(its variable is bound with the opposite polarity). -/
def litFalse (a : Assignment) (lit : Int) : Bool :=
  lookup a lit.natAbs == some (decide (lit < 0))

/-- Test `assignment[Math.abs(lit)] === undefined`: the literal's variable is
unassigned. -/
def litUnassigned (a : Assignment) (lit : Int) : Bool :=
  lookup a lit.natAbs == none

/-- Satisfaction check of `dpll`: every clause has some literal evaluating to
true under the current assignment. -/
def satisfiedB (clauses : Formula) (a : Assignment) : Bool :=
  clauses.all fun c => c.any fun lit => litTrue a lit

/-- Conflict check of `dpll`: some clause has every literal falsified. -/
def conflictedB (clauses : Formula) (a : Assignment) : Bool :=
  clauses.any fun c => c.all fun lit => litFalse a lit

/-- Unit-clause test of `dpll`: the clause has exactly one literal whose
variable is unassigned (the code checks nothing about the other literals). -/
def isUnitB (a : Assignment) (c : Clause) : Bool :=
  (c.filter fun lit => litUnassigned a lit).length == 1

/-- Branching candidates: `clauses.flat().map(Math.abs).filter(unassigned)`;
the branching variable is the head of this list. -/
def branchCandidates (clauses : Formula) (a : Assignment) : List Nat :=
  (clauses.flatten.map Int.natAbs).filter fun v => lookup a v == none

/-- The cache: an association list from assignment keys to outcomes.  A stored
value `none` records the UNSAT sentinel (JS `null`); an absent key is JS
`undefined`. -/
abbrev Memo := List (Assignment × Option Assignment)

/-- Cache lookup `memo[key]`, distinguishing a stored `null` (`some none`)
from an absent entry (`none`), as the JS `!== undefined` test does. -/
def memoLookup : Memo → Assignment → Option (Option Assignment)
  | [], _ => none
  | (k, v) :: rest, key => if key = k then some v else memoLookup rest key

/-- Cache write `memo[key] = v`. -/
def memoInsert (m : Memo) (k : Assignment) (v : Option Assignment) : Memo :=
  (k, v) :: m

/-- Number of distinct variables of the formula not yet assigned: the measure
that shrinks at every recursive call of `dpll`. -/
def unassignedCount (clauses : Formula) (a : Assignment) : Nat :=
  ((clauses.flatten.map Int.natAbs).dedup.filter fun v => lookup a v == none).length

/-- Fuel-indexed translation of `dpll` from `src/DPLL.js`, with the global
cache threaded as state.  Step order is exactly the source's: cache lookup,
satisfaction check, conflict check, unit propagation (no cache write on that
path), branching true-then-false with short-circuit, cache write.
The two `(none, memo)` fallbacks are unreachable: a clause passing `isUnitB`
always has an unassigned literal, and when no guard fires some candidate
variable exists provided no literal is `0` (for formulas containing the
literal `0` the JS code can instead recurse forever on those states; no claim
about such states is proved from the fallbacks). -/
def dpllF : Nat → Formula → Assignment → Memo → Option (Option Assignment × Memo)
  | 0, _, _, _ => none
  | fuel + 1, clauses, a, memo =>
    match memoLookup memo a with
    | some r => some (r, memo)
    | none =>
      if satisfiedB clauses a then some (some a, memoInsert memo a (some a))
      else if conflictedB clauses a then some (none, memoInsert memo a none)
      else match clauses.find? fun c => isUnitB a c with
        | some c =>
          match c.find? fun lit => litUnassigned a lit with
          | some lit => dpllF fuel clauses (insertVar a lit.natAbs (decide (0 < lit))) memo
          | none => some (none, memo)
        | none =>
          match (branchCandidates clauses a).head? with
          | some v =>
            match dpllF fuel clauses (insertVar a v true) memo with
            | none => none
            | some (some r, m1) => some (some r, memoInsert m1 a (some r))
            | some (none, m1) =>
              match dpllF fuel clauses (insertVar a v false) m1 with
              | none => none
              | some (r2, m2) => some (r2, memoInsert m2 a r2)
          | none => some (none, memo)

/-- The solver `dpll(clauses, assignment)` run against cache state `memo`,
returning the outcome and the cache state afterwards.  Fuel
`unassignedCount clauses a + 1` is sufficient (`dpllF_isSome`). -/
def dpll (clauses : Formula) (a : Assignment) (memo : Memo) :
    Option Assignment × Memo :=
  (dpllF (unassignedCount clauses a + 1) clauses a memo).getD (none, memo)

/-- Fuel-indexed cache-free reference semantics: the same search with the
cache lookup and the cache writes removed.  Used to express cache
transparency: a run of `dpllF` against a coherent cache returns exactly this
function's outcome. -/
def dpllPureF : Nat → Formula → Assignment → Option (Option Assignment)
  | 0, _, _ => none
  | fuel + 1, clauses, a =>
    if satisfiedB clauses a then some (some a)
    else if conflictedB clauses a then some none
    else match clauses.find? fun c => isUnitB a c with
      | some c =>
        match c.find? fun lit => litUnassigned a lit with
        | some lit => dpllPureF fuel clauses (insertVar a lit.natAbs (decide (0 < lit)))
        | none => some none
      | none =>
        match (branchCandidates clauses a).head? with
        | some v =>
          match dpllPureF fuel clauses (insertVar a v true) with
          | none => none
          | some (some r) => some (some r)
          | some none => dpllPureF fuel clauses (insertVar a v false)
        | none => some none

/-- Cache-free outcome for a search state. -/
def pureOutcome (clauses : Formula) (a : Assignment) : Option Assignment :=
  (dpllPureF (unassignedCount clauses a + 1) clauses a).getD none

/-- Cache state left behind by a sequence of earlier top-level `dpll` calls on
the same formula, starting from the empty cache. -/
def runMemos (clauses : Formula) (starts : List Assignment) : Memo :=
  starts.foldl (fun m b => (dpll clauses b m).2) []

/-- Serialization of a Bool as JSON. -/
def boolStr (b : Bool) : String :=
  if b then "true" else "false"

/-- Serialization of one assignment entry, as `JSON.stringify` renders it. -/
def entryStr (e : Nat × Bool) : String :=
  "\"" ++ toString e.1 ++ "\":" ++ boolStr e.2

/-- The cache key `JSON.stringify(assignment)`: entries in the object's
canonical ascending-key enumeration order. -/
def jsonKey (a : Assignment) : String :=
  "\x7b" ++ String.intercalate "," (a.map entryStr) ++ "\x7d"

/-- Invariant of every assignment the solver builds: entry keys strictly
ascending (the canonical enumeration of the JS object). -/
abbrev SortedKeys (a : Assignment) : Prop :=
  List.Pairwise (fun e f => e.1 < f.1) a

/-! Basic lemmas about assignment lookup and the termination measure. -/

/-- Spread update then lookup: the bound variable reads back as `some b`, every
other variable is unchanged. -/
theorem lookup_insertVar (a : Assignment) (v : Nat) (b : Bool) (w : Nat) :
    lookup (insertVar a v b) w = if w = v then some b else lookup a w := by
  induction a with
  | nil => simp [insertVar, lookup]
  | cons e rest ih =>
    obtain ⟨x, c⟩ := e
    by_cases h1 : v < x
    · rw [insertVar, if_pos h1]
      simp only [lookup]
    · by_cases h2 : v = x
      · rw [insertVar, if_neg h1, if_pos h2]
        subst h2
        by_cases hw : w = v <;> simp [lookup, hw]
      · rw [insertVar, if_neg h1, if_neg h2]
        by_cases hwx : w = x
        · have hwv : ¬ w = v := by intro h; omega
          have hxv : ¬ x = v := fun h => h2 h.symm
          simp [lookup, hwx, hwv, hxv]
        · by_cases hwv : w = v
          · subst hwv
            simp [lookup, hwx, h2, ih]
          · simp [lookup, hwx, hwv, ih]

theorem length_filter_le_of_imp (xs : List Nat) (p q : Nat → Bool)
    (h : ∀ w, q w = true → p w = true) :
    (xs.filter q).length ≤ (xs.filter p).length := by
  induction xs with
  | nil => simp
  | cons x xs ih =>
    rw [List.filter_cons, List.filter_cons]
    cases hq : q x with
    | true => simp [h x hq]; omega
    | false => cases hp : p x <;> simp <;> omega

theorem length_filter_lt (xs : List Nat) (p q : Nat → Bool) (v : Nat)
    (himp : ∀ w, q w = true → p w = true) (hv : v ∈ xs)
    (hq : q v = false) (hp : p v = true) :
    (xs.filter q).length < (xs.filter p).length := by
  induction xs with
  | nil => cases hv
  | cons x xs ih =>
    rw [List.filter_cons, List.filter_cons]
    rcases List.mem_cons.mp hv with h | h
    · subst h
      have hle := length_filter_le_of_imp xs p q himp
      simp [hq, hp]
      omega
    · have hlt := ih h
      cases hqx : q x with
      | true => simp [himp x hqx]; omega
      | false => cases hpx : p x <;> simp <;> omega

/-- Binding an unassigned variable of the formula strictly shrinks the count of
unassigned formula variables: the solver's termination measure. -/
theorem unassignedCount_insertVar_lt (clauses : Formula) (a : Assignment)
    (v : Nat) (b : Bool) (hv : v ∈ clauses.flatten.map Int.natAbs)
    (hun : lookup a v = none) :
    unassignedCount clauses (insertVar a v b) < unassignedCount clauses a := by
  unfold unassignedCount
  refine length_filter_lt _ _ _ v ?_ (List.mem_dedup.mpr hv) ?_ ?_
  · intro w hw
    rw [beq_iff_eq, lookup_insertVar] at hw
    by_cases hwv : w = v
    · simp [hwv] at hw
    · rw [if_neg hwv] at hw
      simp [hw]
  · simp [lookup_insertVar]
  · simp [hun]

theorem memoLookup_mem (m : Memo) (k : Assignment) (v : Option Assignment)
    (h : memoLookup m k = some v) : (k, v) ∈ m := by
  induction m with
  | nil => simp [memoLookup] at h
  | cons e rest ih =>
    obtain ⟨k0, v0⟩ := e
    simp only [memoLookup] at h
    by_cases hk : k = k0
    · rw [if_pos hk] at h
      obtain rfl := hk
      obtain rfl : v0 = v := by injection h
      exact List.mem_cons_self _ _
    · exact List.mem_cons_of_mem _ (ih (by rwa [if_neg hk] at h))

/-- The head of a list is a member. -/
theorem mem_of_head?_eq_some {α : Type} {l : List α} {x : α}
    (h : l.head? = some x) : x ∈ l := by
  cases l with
  | nil => simp [List.head?] at h
  | cons y ys =>
    obtain rfl : y = x := by simpa [List.head?] using h
    exact List.mem_cons_self _ _

/-- A clause passing the code's unit test has an unassigned literal, so the
inner `find` of `dpll` cannot fail. -/
theorem isUnit_find?_isSome {a : Assignment} {c : Clause}
    (h : isUnitB a c = true) :
    ∃ lit, c.find? (fun lit => litUnassigned a lit) = some lit := by
  unfold isUnitB at h
  rw [beq_iff_eq] at h
  have hne : c.filter (fun lit => litUnassigned a lit) ≠ [] := by
    intro hnil
    rw [hnil] at h
    simp at h
  obtain ⟨x, hx⟩ := List.exists_mem_of_ne_nil _ hne
  have hx' := List.mem_filter.mp hx
  have : (c.find? fun lit => litUnassigned a lit).isSome := by
    rw [List.find?_isSome]
    exact ⟨x, hx'.1, hx'.2⟩
  exact Option.isSome_iff_exists.mp this

/-- Facts extracted from the unit-propagation step: the forced literal is a
member of its clause (hence of the formula's literals) and unassigned. -/
theorem unit_step_facts {clauses : Formula} {a : Assignment} {c : Clause} {lit : Int}
    (hc : clauses.find? (fun c => isUnitB a c) = some c)
    (hl : c.find? (fun lit => litUnassigned a lit) = some lit) :
    lit.natAbs ∈ clauses.flatten.map Int.natAbs ∧ lookup a lit.natAbs = none := by
  have hcmem : c ∈ clauses := List.mem_of_find?_eq_some hc
  have hlmem : lit ∈ c := List.mem_of_find?_eq_some hl
  have hun : litUnassigned a lit = true := List.find?_some hl
  unfold litUnassigned at hun
  rw [beq_iff_eq] at hun
  exact ⟨List.mem_map_of_mem _ (List.mem_flatten.mpr ⟨c, hcmem, hlmem⟩), hun⟩

/-- Facts extracted from the branching step: the branching variable occurs in
the formula and is unassigned. -/
theorem branch_step_facts {clauses : Formula} {a : Assignment} {v : Nat}
    (hv : (branchCandidates clauses a).head? = some v) :
    v ∈ clauses.flatten.map Int.natAbs ∧ lookup a v = none := by
  have hmem := mem_of_head?_eq_some hv
  have h := List.mem_filter.mp hmem
  refine ⟨h.1, ?_⟩
  have := h.2
  rwa [beq_iff_eq] at this

/-! Termination: fuel `unassignedCount clauses a + 1` always suffices. -/

/-- Termination of the memoized search: with fuel exceeding the number of
distinct unassigned formula variables, the search always produces a result. -/
theorem dpllF_isSome : ∀ (fuel : Nat) (clauses : Formula) (a : Assignment) (m : Memo),
    unassignedCount clauses a < fuel → (dpllF fuel clauses a m).isSome = true := by
  intro fuel
  induction fuel with
  | zero => intro clauses a m h; omega
  | succ n ih =>
    intro clauses a m h
    rw [dpllF]
    cases hmemo : memoLookup m a with
    | some r => simp
    | none =>
      simp only
      by_cases hsat : satisfiedB clauses a
      · simp [hsat]
      · by_cases hconf : conflictedB clauses a
        · simp [hsat, hconf]
        · rw [if_neg hsat, if_neg hconf]
          cases hunit : clauses.find? (fun c => isUnitB a c) with
          | some c =>
            have hu : isUnitB a c = true := List.find?_some hunit
            obtain ⟨lit, hlit⟩ := isUnit_find?_isSome hu
            simp only [hlit]
            obtain ⟨hmem, hun⟩ := unit_step_facts hunit hlit
            have hlt := unassignedCount_insertVar_lt clauses a lit.natAbs
              (decide (0 < lit)) hmem hun
            exact ih _ _ _ (by omega)
          | none =>
            cases hhead : (branchCandidates clauses a).head? with
            | some v =>
              obtain ⟨hmem, hun⟩ := branch_step_facts hhead
              have hlt := unassignedCount_insertVar_lt clauses a v true hmem hun
              have h1 := ih clauses (insertVar a v true) m (by omega)
              obtain ⟨⟨r1, m1⟩, hres1⟩ := Option.isSome_iff_exists.mp h1
              simp only [hres1]
              cases r1 with
              | some r => simp
              | none =>
                have hlt2 := unassignedCount_insertVar_lt clauses a v false hmem hun
                have h2 := ih clauses (insertVar a v false) m1 (by omega)
                obtain ⟨⟨r2, m2⟩, hres2⟩ := Option.isSome_iff_exists.mp h2
                simp only [hres2]
                simp
            | none => simp

/-- Fuel monotonicity of the cache-free search. -/
theorem dpllPureF_mono : ∀ (fuel fuel' : Nat) (clauses : Formula) (a : Assignment)
    (r : Option Assignment), fuel ≤ fuel' →
    dpllPureF fuel clauses a = some r → dpllPureF fuel' clauses a = some r := by
  intro fuel
  induction fuel with
  | zero => intro fuel' clauses a r _ h; simp [dpllPureF] at h
  | succ n ih =>
    intro fuel' clauses a r hle h
    obtain ⟨k, rfl⟩ : ∃ k, fuel' = k + 1 := ⟨fuel' - 1, by omega⟩
    rw [dpllPureF] at h ⊢
    by_cases hsat : satisfiedB clauses a
    · rw [if_pos hsat] at h ⊢; exact h
    · rw [if_neg hsat] at h ⊢
      by_cases hconf : conflictedB clauses a
      · rw [if_pos hconf] at h ⊢; exact h
      · rw [if_neg hconf] at h ⊢
        cases hunit : clauses.find? (fun c => isUnitB a c) with
        | some c =>
          simp only [hunit] at h ⊢
          cases hlit : c.find? (fun lit => litUnassigned a lit) with
          | some lit =>
            simp only [hlit] at h ⊢
            exact ih _ _ _ _ (by omega) h
          | none => simp only [hlit] at h ⊢; exact h
        | none =>
          simp only [hunit] at h ⊢
          cases hhead : (branchCandidates clauses a).head? with
          | some v =>
            simp only [hhead] at h ⊢
            cases h1 : dpllPureF n clauses (insertVar a v true) with
            | none => rw [h1] at h; simp at h
            | some r1 =>
              rw [h1] at h
              rw [ih _ _ _ _ (show n ≤ k by omega) h1]
              cases r1 with
              | some rr => simpa using h
              | none =>
                simp only at h ⊢
                exact ih _ _ _ _ (by omega) h
          | none => simp only [hhead] at h ⊢; exact h

/-- Termination of the cache-free search. -/
theorem dpllPureF_isSome : ∀ (fuel : Nat) (clauses : Formula) (a : Assignment),
    unassignedCount clauses a < fuel → (dpllPureF fuel clauses a).isSome = true := by
  intro fuel
  induction fuel with
  | zero => intro clauses a h; omega
  | succ n ih =>
    intro clauses a h
    rw [dpllPureF]
    by_cases hsat : satisfiedB clauses a
    · simp [hsat]
    · by_cases hconf : conflictedB clauses a
      · simp [hsat, hconf]
      · rw [if_neg hsat, if_neg hconf]
        cases hunit : clauses.find? (fun c => isUnitB a c) with
        | some c =>
          have hu : isUnitB a c = true := List.find?_some hunit
          obtain ⟨lit, hlit⟩ := isUnit_find?_isSome hu
          simp only [hlit]
          obtain ⟨hmem, hun⟩ := unit_step_facts hunit hlit
          have hlt := unassignedCount_insertVar_lt clauses a lit.natAbs
            (decide (0 < lit)) hmem hun
          exact ih _ _ (by omega)
        | none =>
          cases hhead : (branchCandidates clauses a).head? with
          | some v =>
            obtain ⟨hmem, hun⟩ := branch_step_facts hhead
            have hlt := unassignedCount_insertVar_lt clauses a v true hmem hun
            have h1 := ih clauses (insertVar a v true) (by omega)
            obtain ⟨r1, hres1⟩ := Option.isSome_iff_exists.mp h1
            simp only [hres1]
            cases r1 with
            | some r => simp
            | none =>
              have hlt2 := unassignedCount_insertVar_lt clauses a v false hmem hun
              exact ih clauses (insertVar a v false) (by omega)
          | none => simp

/-- With any sufficient fuel the cache-free search computes `pureOutcome`. -/
theorem dpllPureF_eq_pureOutcome {fuel : Nat} (clauses : Formula) (a : Assignment)
    (h : unassignedCount clauses a < fuel) :
    dpllPureF fuel clauses a = some (pureOutcome clauses a) := by
  have h1 := dpllPureF_isSome (unassignedCount clauses a + 1) clauses a (by omega)
  obtain ⟨r, hr⟩ := Option.isSome_iff_exists.mp h1
  have hro : pureOutcome clauses a = r := by rw [pureOutcome, hr]; rfl
  rw [hro]
  exact dpllPureF_mono _ _ _ _ _ (by omega) hr

/-! Step equations for the cache-free outcome. -/

theorem pureOutcome_sat {clauses : Formula} {a : Assignment}
    (hsat : satisfiedB clauses a = true) : pureOutcome clauses a = some a := by
  rw [pureOutcome, dpllPureF, if_pos hsat]
  rfl

theorem pureOutcome_conflict {clauses : Formula} {a : Assignment}
    (hsat : satisfiedB clauses a = false) (hconf : conflictedB clauses a = true) :
    pureOutcome clauses a = none := by
  rw [pureOutcome, dpllPureF, if_neg (by simp [hsat]), if_pos hconf]
  rfl

theorem pureOutcome_unit {clauses : Formula} {a : Assignment} {c : Clause} {lit : Int}
    (hsat : satisfiedB clauses a = false) (hconf : conflictedB clauses a = false)
    (hunit : clauses.find? (fun c => isUnitB a c) = some c)
    (hlit : c.find? (fun lit => litUnassigned a lit) = some lit) :
    pureOutcome clauses a =
      pureOutcome clauses (insertVar a lit.natAbs (decide (0 < lit))) := by
  obtain ⟨hmem, hun⟩ := unit_step_facts hunit hlit
  have hlt := unassignedCount_insertVar_lt clauses a lit.natAbs (decide (0 < lit)) hmem hun
  rw [pureOutcome, dpllPureF, if_neg (by simp [hsat]), if_neg (by simp [hconf])]
  simp only [hunit, hlit]
  rw [dpllPureF_eq_pureOutcome clauses _ (by omega)]
  rfl

theorem pureOutcome_unit_stuck {clauses : Formula} {a : Assignment} {c : Clause}
    (hsat : satisfiedB clauses a = false) (hconf : conflictedB clauses a = false)
    (hunit : clauses.find? (fun c => isUnitB a c) = some c)
    (hlit : c.find? (fun lit => litUnassigned a lit) = none) :
    pureOutcome clauses a = none := by
  rw [pureOutcome, dpllPureF, if_neg (by simp [hsat]), if_neg (by simp [hconf])]
  simp only [hunit, hlit]
  rfl

theorem pureOutcome_branch {clauses : Formula} {a : Assignment} {v : Nat}
    (hsat : satisfiedB clauses a = false) (hconf : conflictedB clauses a = false)
    (hunit : clauses.find? (fun c => isUnitB a c) = none)
    (hhead : (branchCandidates clauses a).head? = some v) :
    pureOutcome clauses a =
      match pureOutcome clauses (insertVar a v true) with
      | some r => some r
      | none => pureOutcome clauses (insertVar a v false) := by
  obtain ⟨hmem, hun⟩ := branch_step_facts hhead
  have hlt := unassignedCount_insertVar_lt clauses a v true hmem hun
  have hlt2 := unassignedCount_insertVar_lt clauses a v false hmem hun
  rw [pureOutcome, dpllPureF, if_neg (by simp [hsat]), if_neg (by simp [hconf])]
  simp only [hunit, hhead]
  rw [dpllPureF_eq_pureOutcome clauses _ (show unassignedCount clauses (insertVar a v true) < unassignedCount clauses a by omega)]
  cases hpt : pureOutcome clauses (insertVar a v true) with
  | some r => rfl
  | none =>
    simp only
    rw [dpllPureF_eq_pureOutcome clauses _ (show unassignedCount clauses (insertVar a v false) < unassignedCount clauses a by omega)]
    rfl

theorem pureOutcome_stuck {clauses : Formula} {a : Assignment}
    (hsat : satisfiedB clauses a = false) (hconf : conflictedB clauses a = false)
    (hunit : clauses.find? (fun c => isUnitB a c) = none)
    (hhead : (branchCandidates clauses a).head? = none) :
    pureOutcome clauses a = none := by
  rw [pureOutcome, dpllPureF, if_neg (by simp [hsat]), if_neg (by simp [hconf])]
  simp only [hunit, hhead]
  rfl

/-! Soundness of the cache-free search. -/

/-- A satisfying outcome of the cache-free search passes the satisfaction
check. -/
theorem dpllPureF_sound : ∀ (fuel : Nat) (clauses : Formula) (a : Assignment)
    (r : Assignment), dpllPureF fuel clauses a = some (some r) →
    satisfiedB clauses r = true := by
  intro fuel
  induction fuel with
  | zero => intro clauses a r h; simp [dpllPureF] at h
  | succ n ih =>
    intro clauses a r h
    rw [dpllPureF] at h
    by_cases hsat : satisfiedB clauses a
    · rw [if_pos hsat] at h
      obtain rfl : a = r := by
        injection h with h'
        injection h'
      exact hsat
    · rw [if_neg hsat] at h
      by_cases hconf : conflictedB clauses a
      · rw [if_pos hconf] at h
        simp at h
      · rw [if_neg hconf] at h
        cases hunit : clauses.find? (fun c => isUnitB a c) with
        | some c =>
          simp only [hunit] at h
          cases hlit : c.find? (fun lit => litUnassigned a lit) with
          | some lit =>
            simp only [hlit] at h
            exact ih _ _ _ h
          | none => simp only [hlit] at h; simp at h
        | none =>
          simp only [hunit] at h
          cases hhead : (branchCandidates clauses a).head? with
          | some v =>
            simp only [hhead] at h
            cases h1 : dpllPureF n clauses (insertVar a v true) with
            | none => rw [h1] at h; simp at h
            | some r1 =>
              rw [h1] at h
              cases r1 with
              | some rr =>
                obtain rfl : rr = r := by
                  simp only at h
                  injection h with h'
                  injection h'
                exact ih _ _ _ h1
              | none =>
                simp only at h
                exact ih _ _ _ h
          | none => simp only [hhead] at h; simp at h

/-! Cache coherence: the memoized search against a coherent cache computes the
cache-free outcome, and leaves the cache coherent. -/

/-- Coherence of a cache state with respect to a formula: every stored entry
records the cache-free outcome of the solver on that entry's key.  Caches
produced by earlier `dpll` runs on the same formula are coherent; caches from
runs on other formulas need not be. -/
def MemoCoherent (clauses : Formula) (m : Memo) : Prop :=
  ∀ e ∈ m, e.2 = pureOutcome clauses e.1

theorem memoCoherent_nil (clauses : Formula) : MemoCoherent clauses [] := by
  intro e he
  cases he

theorem memoCoherent_insert {clauses : Formula} {m : Memo} {k : Assignment}
    {v : Option Assignment} (hm : MemoCoherent clauses m)
    (hv : v = pureOutcome clauses k) : MemoCoherent clauses (memoInsert m k v) := by
  intro e he
  rcases List.mem_cons.mp he with rfl | he'
  · exact hv
  · exact hm _ he'

/-- Main lemma: against a coherent cache, the memoized search returns the
cache-free outcome and preserves coherence. -/
theorem dpllF_coherent : ∀ (fuel : Nat) (clauses : Formula) (a : Assignment) (m : Memo)
    (res : Option Assignment) (m' : Memo), MemoCoherent clauses m →
    dpllF fuel clauses a m = some (res, m') →
    res = pureOutcome clauses a ∧ MemoCoherent clauses m' := by
  intro fuel
  induction fuel with
  | zero => intro clauses a m res m' _ h; simp [dpllF] at h
  | succ n ih =>
    intro clauses a m res m' hcoh h
    rw [dpllF] at h
    cases hmemo : memoLookup m a with
    | some r =>
      simp only [hmemo] at h
      obtain ⟨rfl, rfl⟩ : r = res ∧ m = m' := by
        injection h with h'
        exact ⟨congrArg Prod.fst h', congrArg Prod.snd h'⟩
      exact ⟨(hcoh _ (memoLookup_mem _ _ _ hmemo)), hcoh⟩
    | none =>
      simp only [hmemo] at h
      by_cases hsat : satisfiedB clauses a
      · rw [if_pos hsat] at h
        obtain ⟨rfl, rfl⟩ : some a = res ∧ memoInsert m a (some a) = m' := by
          injection h with h'
          exact ⟨congrArg Prod.fst h', congrArg Prod.snd h'⟩
        refine ⟨(pureOutcome_sat hsat).symm, memoCoherent_insert hcoh (pureOutcome_sat hsat).symm⟩
      · rw [if_neg hsat] at h
        rw [Bool.not_eq_true] at hsat
        by_cases hconf : conflictedB clauses a
        · rw [if_pos hconf] at h
          obtain ⟨rfl, rfl⟩ : (none : Option Assignment) = res ∧ memoInsert m a none = m' := by
            injection h with h'
            exact ⟨congrArg Prod.fst h', congrArg Prod.snd h'⟩
          refine ⟨(pureOutcome_conflict hsat hconf).symm,
            memoCoherent_insert hcoh (pureOutcome_conflict hsat hconf).symm⟩
        · rw [if_neg hconf] at h
          rw [Bool.not_eq_true] at hconf
          cases hunit : clauses.find? (fun c => isUnitB a c) with
          | some c =>
            simp only [hunit] at h
            cases hlit : c.find? (fun lit => litUnassigned a lit) with
            | some lit =>
              simp only [hlit] at h
              obtain ⟨hres, hcoh'⟩ := ih _ _ _ _ _ hcoh h
              exact ⟨hres.trans (pureOutcome_unit hsat hconf hunit hlit).symm, hcoh'⟩
            | none =>
              simp only [hlit] at h
              obtain ⟨rfl, rfl⟩ : (none : Option Assignment) = res ∧ m = m' := by
                injection h with h'
                exact ⟨congrArg Prod.fst h', congrArg Prod.snd h'⟩
              exact ⟨(pureOutcome_unit_stuck hsat hconf hunit hlit).symm, hcoh⟩
          | none =>
            simp only [hunit] at h
            cases hhead : (branchCandidates clauses a).head? with
            | some v =>
              simp only [hhead] at h
              cases h1 : dpllF n clauses (insertVar a v true) m with
              | none => rw [h1] at h; simp at h
              | some p1 =>
                obtain ⟨r1, m1⟩ := p1
                rw [h1] at h
                obtain ⟨hres1, hcoh1⟩ := ih _ _ _ _ _ hcoh h1
                cases r1 with
                | some r =>
                  simp only at h
                  obtain ⟨rfl, rfl⟩ : some r = res ∧ memoInsert m1 a (some r) = m' := by
                    injection h with h'
                    exact ⟨congrArg Prod.fst h', congrArg Prod.snd h'⟩
                  have hout : pureOutcome clauses a = some r := by
                    rw [pureOutcome_branch hsat hconf hunit hhead, ← hres1]
                  exact ⟨hout.symm, memoCoherent_insert hcoh1 hout.symm⟩
                | none =>
                  simp only at h
                  cases h2 : dpllF n clauses (insertVar a v false) m1 with
                  | none => rw [h2] at h; simp at h
                  | some p2 =>
                    obtain ⟨r2, m2⟩ := p2
                    rw [h2] at h
                    obtain ⟨hres2, hcoh2⟩ := ih _ _ _ _ _ hcoh1 h2
                    obtain ⟨rfl, rfl⟩ : r2 = res ∧ memoInsert m2 a r2 = m' := by
                      injection h with h'
                      exact ⟨congrArg Prod.fst h', congrArg Prod.snd h'⟩
                    have hout : pureOutcome clauses a = r2 := by
                      rw [pureOutcome_branch hsat hconf hunit hhead, ← hres1, hres2]
                    exact ⟨hout.symm, memoCoherent_insert hcoh2 hout.symm⟩
            | none =>
              simp only [hhead] at h
              obtain ⟨rfl, rfl⟩ : (none : Option Assignment) = res ∧ m = m' := by
                injection h with h'
                exact ⟨congrArg Prod.fst h', congrArg Prod.snd h'⟩
              exact ⟨(pureOutcome_stuck hsat hconf hunit hhead).symm, hcoh⟩

/-- Against any coherent cache state, `dpll` returns the cache-free outcome. -/
theorem dpll_eq_pure (clauses : Formula) (a : Assignment) (m : Memo)
    (hcoh : MemoCoherent clauses m) :
    (dpll clauses a m).1 = pureOutcome clauses a := by
  have hs := dpllF_isSome (unassignedCount clauses a + 1) clauses a m (by omega)
  obtain ⟨⟨res, m'⟩, hres⟩ := Option.isSome_iff_exists.mp hs
  have hc := dpllF_coherent _ clauses a m res m' hcoh hres
  rw [dpll, hres]
  exact hc.1

/-- Running `dpll` against a coherent cache leaves the cache coherent. -/
theorem dpll_memo_coherent (clauses : Formula) (a : Assignment) (m : Memo)
    (hcoh : MemoCoherent clauses m) : MemoCoherent clauses (dpll clauses a m).2 := by
  have hs := dpllF_isSome (unassignedCount clauses a + 1) clauses a m (by omega)
  obtain ⟨⟨res, m'⟩, hres⟩ := Option.isSome_iff_exists.mp hs
  have hc := dpllF_coherent _ clauses a m res m' hcoh hres
  rw [dpll, hres]
  exact hc.2

/-- A cache built up by earlier `dpll` calls on the same formula is coherent. -/
theorem runMemos_coherent (clauses : Formula) (starts : List Assignment) :
    MemoCoherent clauses (runMemos clauses starts) := by
  rw [runMemos]
  have main : ∀ (bs : List Assignment) (m : Memo), MemoCoherent clauses m →
      MemoCoherent clauses (bs.foldl (fun m b => (dpll clauses b m).2) m) := by
    intro bs
    induction bs with
    | nil => intro m hm; simpa using hm
    | cons b bs ih =>
      intro m hm
      exact ih _ (dpll_memo_coherent clauses b m hm)
  exact main starts [] (memoCoherent_nil clauses)

/-! Canonicity of the cache key. -/

theorem lookup_eq_none_of_forall_lt {a : Assignment} {v : Nat}
    (h : ∀ e ∈ a, v < e.1) : lookup a v = none := by
  induction a with
  | nil => rfl
  | cons e rest ih =>
    obtain ⟨x, c⟩ := e
    have hvx : v < x := h _ (List.mem_cons_self _ _)
    rw [lookup, if_neg (by omega)]
    exact ih fun e he => h e (List.mem_cons_of_mem _ he)

/-- Two canonically-ordered assignment objects that agree as variable maps are
the same entry list. -/
theorem sortedKeys_lookup_ext : ∀ (a b : Assignment), SortedKeys a → SortedKeys b →
    (∀ v, lookup a v = lookup b v) → a = b := by
  intro a
  induction a with
  | nil =>
    intro b _ _ hext
    cases b with
    | nil => rfl
    | cons f brest =>
      obtain ⟨y, d⟩ := f
      have h1 := hext y
      simp [lookup] at h1
  | cons e arest ih =>
    intro b ha hb hext
    obtain ⟨x, c⟩ := e
    cases b with
    | nil =>
      have h1 := hext x
      simp [lookup] at h1
    | cons f brest =>
      obtain ⟨y, d⟩ := f
      obtain ⟨hax, harest⟩ := List.pairwise_cons.mp ha
      obtain ⟨hby, hbrest⟩ := List.pairwise_cons.mp hb
      rcases Nat.lt_trichotomy x y with hxy | hxy | hxy
      · exfalso
        have h1 := hext x
        rw [lookup, if_pos rfl, lookup, if_neg (by omega)] at h1
        rw [lookup_eq_none_of_forall_lt (fun e he => lt_trans hxy (hby e he))] at h1
        simp at h1
      · subst hxy
        obtain rfl : c = d := by
          have h1 := hext x
          rw [lookup, if_pos rfl, lookup, if_pos rfl] at h1
          injection h1
        have hext' : ∀ v, lookup arest v = lookup brest v := by
          intro v
          by_cases hvx : v = x
          · subst hvx
            rw [lookup_eq_none_of_forall_lt hax, lookup_eq_none_of_forall_lt hby]
          · have h1 := hext v
            rw [lookup, if_neg hvx, lookup, if_neg hvx] at h1
            exact h1
        rw [ih brest harest hbrest hext']
      · exfalso
        have h1 := hext y
        rw [lookup, if_neg (by omega), lookup, if_pos rfl] at h1
        rw [lookup_eq_none_of_forall_lt (fun e he => lt_trans hxy (hax e he))] at h1
        simp at h1

/-- Membership in an updated assignment object. -/
theorem mem_insertVar {a : Assignment} {v : Nat} {b : Bool} {e : Nat × Bool}
    (he : e ∈ insertVar a v b) : e = (v, b) ∨ e ∈ a := by
  induction a with
  | nil => simpa [insertVar] using he
  | cons f rest ih =>
    obtain ⟨x, c⟩ := f
    by_cases h1 : v < x
    · rw [insertVar, if_pos h1] at he
      rcases List.mem_cons.mp he with rfl | he'
      · exact Or.inl rfl
      · exact Or.inr he'
    · by_cases h2 : v = x
      · rw [insertVar, if_neg h1, if_pos h2] at he
        rcases List.mem_cons.mp he with rfl | he'
        · exact Or.inl rfl
        · exact Or.inr (List.mem_cons_of_mem _ he')
      · rw [insertVar, if_neg h1, if_neg h2] at he
        rcases List.mem_cons.mp he with rfl | he'
        · exact Or.inr (List.mem_cons_self _ _)
        · rcases ih he' with h | h
          · exact Or.inl h
          · exact Or.inr (List.mem_cons_of_mem _ h)

/-- The spread update keeps the canonical ascending-key order, so every
assignment the solver builds (starting from the empty object) is canonically
ordered. -/
theorem sortedKeys_insertVar {a : Assignment} (ha : SortedKeys a) (v : Nat) (b : Bool) :
    SortedKeys (insertVar a v b) := by
  induction a with
  | nil => simp [insertVar]
  | cons e rest ih =>
    obtain ⟨x, c⟩ := e
    obtain ⟨hx, hrest⟩ := List.pairwise_cons.mp ha
    by_cases h1 : v < x
    · rw [insertVar, if_pos h1]
      refine List.pairwise_cons.mpr ⟨?_, List.pairwise_cons.mpr ⟨hx, hrest⟩⟩
      intro e he
      rcases List.mem_cons.mp he with rfl | he'
      · exact h1
      · exact lt_trans h1 (hx e he')
    · by_cases h2 : v = x
      · rw [insertVar, if_neg h1, if_pos h2]
        subst h2
        exact List.pairwise_cons.mpr ⟨hx, hrest⟩
      · rw [insertVar, if_neg h1, if_neg h2]
        refine List.pairwise_cons.mpr ⟨?_, ih hrest⟩
        intro e he
        rcases mem_insertVar he with rfl | he'
        · omega
        · exact hx e he'

/-! Claim theorems. -/

/-- C1 (refuted; bug in the code): the claim says a satisfiable formula is
never answered UNSAT, and that a `null` answer means no extension of the
starting assignment satisfies the formula.  The formula
`[[1,2],[1],[-2]]` is satisfied by binding 1 to true and 2 to false, yet
`dpll` on the empty assignment with a fresh cache returns the UNSAT
sentinel: after the genuine unit step on `[1]`, the unit test (which only
counts unassigned literals) fires on the already-satisfied clause `[1,2]`
and forces 2 to true, and the unit path returns the child's result with no
branching. -/
theorem dpll_unsat_on_satisfiable_formula :
    (dpll [[1, 2], [1], [-2]] [] []).1 = none ∧
      satisfiedB [[1, 2], [1], [-2]] [(1, true), (2, false)] = true := by
  decide

/-- C2 (confirmed): soundness.  Whenever `dpll` run against a fresh cache
returns an assignment, every clause of the formula has a literal whose
variable that assignment binds with matching polarity. -/
theorem dpll_sound (clauses : Formula) (a : Assignment) (r : Assignment)
    (h : (dpll clauses a []).1 = some r) :
    ∀ c ∈ clauses, ∃ lit ∈ c, lookup r lit.natAbs = some (decide (0 < lit)) := by
  have hpure : pureOutcome clauses a = some r :=
    (dpll_eq_pure clauses a [] (memoCoherent_nil clauses)).symm.trans h
  have hP : dpllPureF (unassignedCount clauses a + 1) clauses a = some (some r) := by
    rw [dpllPureF_eq_pureOutcome clauses a (by omega), hpure]
  have hsat := dpllPureF_sound _ clauses a r hP
  intro c hc
  rw [satisfiedB, List.all_eq_true] at hsat
  have hany := hsat c hc
  rw [List.any_eq_true] at hany
  obtain ⟨lit, hlitmem, hlit⟩ := hany
  refine ⟨lit, hlitmem, ?_⟩
  rw [litTrue, beq_iff_eq] at hlit
  exact hlit

theorem dpll_sound_witness :
    lookup [(1, true)] (Int.natAbs 1) = some (decide ((0 : Int) < 1)) := by
  obtain ⟨lit, hmem, h⟩ := dpll_sound [[1]] [] [(1, true)] (by decide) [1] (by decide)
  obtain rfl := List.mem_singleton.mp hmem
  exact h

/-- C3 (refuted; bug in the code): the claim says propagation fires only on a
genuine unit clause (one unassigned literal, all others falsified), never on
a clause containing a satisfied literal.  With assignment binding 1 to true
and formula `[[1,2],[-2]]`, the clause `[1,2]` is already satisfied by the
literal `1`, yet the code's unit search selects it (its unassigned-literal
count is one) and forces 2 to true; the solve then answers UNSAT although
extending with 2 bound to false satisfies the formula. -/
theorem dpll_unit_fires_on_satisfied_clause :
    List.find? (fun c => isUnitB [(1, true)] c) [[1, 2], [-2]] = some [1, 2] ∧
      litTrue [(1, true)] 1 = true ∧
      (dpll [[1, 2], [-2]] [(1, true)] []).1 = none ∧
      satisfiedB [[1, 2], [-2]] [(1, true), (2, false)] = true := by
  decide

/-- C4 counterexample (claim refuted): the cache is global across formulas,
so an earlier solve of `[[1]]` (which stores the satisfying assignment under
the key of the assignment binding 1 to true) changes the outcome of a later
solve of `[[-1]]` from that same assignment: with the polluted cache it
returns the cached assignment, with an empty cache it returns UNSAT. -/
theorem dpll_cache_changes_outcome :
    (dpll [[-1]] [(1, true)] ((dpll [[1]] [] []).2)).1 ≠
      (dpll [[-1]] [(1, true)] []).1 := by
  decide

/-- C4 amended (proved): the outcome of `dpll` is unchanged by prior cache
contents provided the cache was populated by earlier solve calls on the SAME
formula: for any sequence of earlier starting assignments, solving from the
resulting cache returns the same outcome as solving from the empty cache. -/
theorem dpll_cache_transparent_same_formula (clauses : Formula)
    (starts : List Assignment) (a : Assignment) :
    (dpll clauses a (runMemos clauses starts)).1 = (dpll clauses a []).1 := by
  rw [dpll_eq_pure clauses a _ (runMemos_coherent clauses starts),
    dpll_eq_pure clauses a [] (memoCoherent_nil clauses)]

/-- C5 (refuted; bug in the code): the spec's Scenario 3 formula
`[[1,-3,4],[-1,2],[-2,3],[-4]]` is satisfiable (all four variables false),
but the code answers UNSAT on it (its own demo input): the broken unit test
repeatedly propagates from already-satisfied clauses. -/
theorem dpll_scenario3_reported_unsat :
    (dpll [[1, -3, 4], [-1, 2], [-2, 3], [-4]] [] []).1 = none ∧
      satisfiedB [[1, -3, 4], [-1, 2], [-2, 3], [-4]]
        [(1, false), (2, false), (3, false), (4, false)] = true := by
  decide

/-- C6 (confirmed): a formula containing an empty clause is answered UNSAT
immediately from the empty assignment regardless of the other clauses (the
conflict check fires at the root, storing the sentinel under the root key),
and the formula with no clauses is answered SAT with the empty assignment. -/
theorem dpll_empty_clause_and_empty_formula :
    (∀ clauses : Formula, [] ∈ clauses → dpll clauses [] [] = (none, [([], none)])) ∧
      dpll ([] : Formula) [] [] = (some [], [([], some [])]) := by
  constructor
  · intro clauses hmem
    have hsat : satisfiedB clauses [] = false := by
      by_contra hne
      rw [Bool.not_eq_false, satisfiedB, List.all_eq_true] at hne
      have := hne [] hmem
      simp at this
    have hconf : conflictedB clauses [] = true := by
      rw [conflictedB, List.any_eq_true]
      exact ⟨[], hmem, by simp⟩
    simp [dpll, dpllF, memoLookup, memoInsert, hsat, hconf]
  · decide

theorem dpll_empty_clause_witness :
    dpll [[], [(1 : Int)]] [] [] = (none, [([], none)]) :=
  dpll_empty_clause_and_empty_formula.1 [[], [1]] (by decide)

/-- C7 counterexample (claim refuted): the code performs no input validation
at all.  On the clause list `[[0]]`, whose literal `0` has a non-positive
variable index, no error is raised: the search runs, returns the assignment
binding variable 0 to false, and the cache ends up holding an entry keyed on
that invalid-derived assignment — contradicting the claim that an
InvalidFormula error fires before any cache activity. -/
theorem dpll_no_validation :
    (dpll [[0]] [] []).1 = some [(0, false)] ∧
      (dpll [[0]] [] []).2 = [([(0, false)], some [(0, false)])] := by
  decide

/-- C7 amended (proved): on a clause list containing the non-positive literal
`0`, `dpll` raises nothing and runs the normal search, treating `0` as
variable 0 with negative polarity; afterwards the cache maps the
invalid-derived key (variable 0 bound false) to the returned outcome. -/
theorem dpll_caches_invalid_derived_key :
    memoLookup (dpll [[0]] [] []).2 [(0, false)] = some (some [(0, false)]) ∧
      (dpll [[0]] [] []).1 = some [(0, false)] := by
  decide

/-- C8 (confirmed): termination.  For a formula whose literals are all
nonzero, the search with fuel one more than the number of distinct
unassigned formula variables always returns (each recursive step binds a
previously unassigned formula variable, `unassignedCount_insertVar_lt`), so
the recursion depth is bounded by the formula's variable count. -/
theorem dpll_terminates (clauses : Formula) (a : Assignment) (m : Memo)
    (_hnz : ∀ lit ∈ clauses.flatten, lit ≠ (0 : Int)) :
    (dpllF (unassignedCount clauses a + 1) clauses a m).isSome = true :=
  dpllF_isSome _ clauses a m (by omega)

theorem dpll_terminates_witness :
    (dpllF (unassignedCount [[1], [-1]] [] + 1) [[1], [-1]] [] []).isSome = true :=
  dpll_terminates [[1], [-1]] [] [] (by decide)

/-- C9 (confirmed): the cache key is canonical and order-independent.  JS
objects enumerate integer-like keys in ascending numeric order, so two
assignment objects that are equal as variable-to-boolean maps have the same
canonical entry list and hence the same `JSON.stringify` string, no matter
in which order the bindings were added. -/
theorem jsonKey_canonical (a b : Assignment) (ha : SortedKeys a) (hb : SortedKeys b)
    (hext : ∀ v, lookup a v = lookup b v) : jsonKey a = jsonKey b := by
  rw [sortedKeys_lookup_ext a b ha hb hext]

theorem jsonKey_canonical_witness :
    jsonKey (insertVar (insertVar [] 2 true) 1 false) =
      jsonKey (insertVar (insertVar [] 1 false) 2 true) :=
  jsonKey_canonical _ _ (by decide) (by decide) (fun _ => rfl)

/-- C10 (confirmed): a cached UNSAT outcome is faithfully replayed.  When the
cache maps the current assignment's key to the stored sentinel (`some none`,
the JS `null`), `dpll` returns the sentinel straight from the cache-lookup
step, leaving the cache untouched: the lookup distinguishes a stored `null`
from an absent entry. -/
theorem dpll_replays_cached_unsat (clauses : Formula) (a : Assignment) (m : Memo)
    (h : memoLookup m a = some none) : dpll clauses a m = (none, m) := by
  rw [dpll, dpllF]
  simp only [h]
  rfl

theorem dpll_replays_cached_unsat_witness :
    dpll [[1]] [] [([], none)] = (none, [([], none)]) :=
  dpll_replays_cached_unsat [[1]] [] [([], none)] (by decide)

end SAT
